import Mathlib

/-!
Verification of the tauri-drive backend core against its specification.

The Rust sources are shallowly embedded: pure functions become Lean
functions, the stateful multipart driver becomes an explicit state/step
model, machine integers become `Nat`, fallible code returns
`Option`/`Except`.  External collaborators (the SHA-256 and AES-GCM
crates, base64, serde_json, the SQL store, the object-store SDK) are
modelled as function parameters; the repository's own logic — byte
layouts, loop structure, guard conditions, error selection — is
translated from the source.
-/

namespace TauriDrive

/-! Constants of `src-tauri/src/r2/multipart.rs`. -/

def DEFAULT_CHUNK_SIZE : Nat := 10 * 1024 * 1024

def MIN_CHUNK_SIZE : Nat := 5 * 1024 * 1024

def MAX_CONCURRENT_UPLOADS : Nat := 8

/-- Chunk size selected by `MultipartUpload::new`:
`chunk_size.unwrap_or(DEFAULT_CHUNK_SIZE).max(MIN_CHUNK_SIZE)`. -/
def effectiveChunkSize (requested : Option Nat) : Nat :=
  max (requested.getD DEFAULT_CHUNK_SIZE) MIN_CHUNK_SIZE

/-- Number of parts computed by `upload_file_concurrent`:
`(file_size + chunk_size - 1) / chunk_size` (integer division). -/
def numParts (total chunk : Nat) : Nat :=
  (total + chunk - 1) / chunk

/-- The `(part_number, byte_count)` plan produced by the producer loop of
`upload_file_concurrent`: starting at `offset = 0`, while `offset < file_size`
read `bytes_to_read = min(chunk_size, file_size - offset)` and dispatch a part,
incrementing the 1-indexed part number.  The `chunk = 0` branch is unreachable
in the program (`chunk_size ≥ MIN_CHUNK_SIZE`); it is only there so that the
recursion terminates on all of `Nat`. -/
def planParts (chunk partNo remaining : Nat) : List (Nat × Nat) :=
  if _hr : remaining = 0 then []
  else if _hc : chunk = 0 then []
  else (partNo, min chunk remaining) ::
    planParts chunk (partNo + 1) (remaining - min chunk remaining)
termination_by remaining
decreasing_by
  have h1 : 0 < min chunk remaining := by
    exact lt_min (Nat.pos_of_ne_zero _hc) (Nat.pos_of_ne_zero _hr)
  exact Nat.sub_lt (Nat.pos_of_ne_zero _hr) h1

/-- Terminal outcome of one spawned part-upload task: the task returns the
part's ETag, returns an error (a failed `UploadPart` call or an observed
cancellation inside the task), or panics. -/
inductive PartOutcome where
  | ok (etag : String)
  | err (msg : String)
  | taskPanic (msg : String)

/-- The producer loop of `upload_file_concurrent`, with the cooperative
cancellation checks made explicit: `cancelAt p` is true when the shared
`cancelled` flag is observed set during the loop iteration that would
dispatch part `p` (either at the top-of-loop check or inside the pause
loop).  Returns the dispatched `(part_number, byte_count)` list and whether
the loop ended by cancellation. -/
def producerLoop (chunk : Nat) (cancelAt : Nat → Bool) (partNo remaining : Nat) :
    List (Nat × Nat) × Bool :=
  if _hr : remaining = 0 then ([], false)
  else if _hc : chunk = 0 then ([], false)
  else if cancelAt partNo then ([], true)
  else
    let bytes := min chunk remaining
    let rest := producerLoop chunk cancelAt (partNo + 1) (remaining - bytes)
    ((partNo, bytes) :: rest.1, rest.2)
termination_by remaining
decreasing_by
  have h1 : 0 < min chunk remaining := by
    exact lt_min (Nat.pos_of_ne_zero _hc) (Nat.pos_of_ne_zero _hr)
  exact Nat.sub_lt (Nat.pos_of_ne_zero _hr) h1

/-- Scan of `join_all` results in task (= part) order, returning the first
failure, with the messages produced by `upload_file_concurrent`. -/
def firstFailure (outcomes : Nat → PartOutcome) : List (Nat × Nat) → Option String
  | [] => none
  | (p, _) :: rest =>
    match outcomes p with
    | .ok _ => firstFailure outcomes rest
    | .err m => some m
    | .taskPanic m => some ("Upload task panicked: " ++ m)

/-- Contents of the shared completed-parts list at the end of the run: each
task that returned `Ok` pushed its `(part_number, etag)` pair. -/
def completedOf (outcomes : Nat → PartOutcome) (tasks : List (Nat × Nat)) :
    List (Nat × String) :=
  tasks.filterMap fun pb =>
    match outcomes pb.1 with
    | .ok e => some (pb.1, e)
    | _ => none

/-- Terminal observation of one `upload_file_concurrent` run: the returned
value, whether `AbortMultipartUpload` was invoked, the dispatched parts, and
the shared completed-parts list. -/
structure RunResult where
  result : Except String (List (Nat × String))
  aborted : Bool
  dispatched : List (Nat × Nat)
  completedParts : List (Nat × String)

/-- One run of `MultipartUpload::upload_file_concurrent`, abstracted over the
per-part task outcomes and the points at which the cancellation flag is
observed.  Mirrors the control flow of the source: the producer loop
(cancellation there aborts and returns the error), then the scan of joined
task results (first error or panic aborts and returns), then the
completed-count check (mismatch aborts and returns), else `Ok(parts)`. -/
def runConcurrent (total chunk : Nat) (cancelAt : Nat → Bool)
    (outcomes : Nat → PartOutcome) : RunResult :=
  let pr := producerLoop chunk cancelAt 1 total
  let tasks := pr.1
  let completed := completedOf outcomes tasks
  if pr.2 then
    ⟨Except.error ("Upload cancelled"), true, tasks, completed⟩
  else
    match firstFailure outcomes tasks with
    | some e => ⟨Except.error e, true, tasks, completed⟩
    | none =>
      if completed.length ≠ numParts total chunk then
        ⟨Except.error ("Expected " ++ toString (numParts total chunk) ++
          " parts but only " ++ toString completed.length ++ " completed"),
          true, tasks, completed⟩
      else
        ⟨Except.ok completed, false, tasks, completed⟩

/-- Key order used by `MultipartUpload::complete` when sorting the parts:
`parts.sort_by_key(|(num, _)| *num)`. -/
def partLe (a b : Nat × String) : Prop := a.1 ≤ b.1

instance : DecidableRel partLe := fun a b => inferInstanceAs (Decidable (a.1 ≤ b.1))

instance : IsTotal (Nat × String) partLe := ⟨fun a b => Nat.le_total a.1 b.1⟩

instance : IsTrans (Nat × String) partLe := ⟨fun _ _ _ hab hbc => Nat.le_trans hab hbc⟩

/-- The `(part_number, etag)` sequence submitted to `CompleteMultipartUpload`
by `MultipartUpload::complete`: the caller-supplied list stably sorted by
part number. -/
def completeSubmit (parts : List (Nat × String)) : List (Nat × String) :=
  List.insertionSort partLe parts

/-! Memory model of the concurrent driver, for the in-flight buffer claim.
The producer reads one chunk buffer per loop iteration and spawns a task
that first waits on the 8-permit semaphore, then uploads and releases its
buffer.  A state records the bytes not yet read, the buffer sizes of
spawned tasks still waiting for a permit, the buffer sizes of tasks holding
a permit, and the number of finished tasks. -/

structure DriverState where
  remaining : Nat
  waiting : List Nat
  inFlight : List Nat
  doneCount : Nat
deriving DecidableEq, Repr

inductive DriverAction where
  | produce
  | acquire
  | finish
deriving DecidableEq, Repr

/-- Interleaved atomic steps of the driver: `produce` is one iteration of the
producer loop (read `min chunk remaining` bytes from disk, spawn the task —
the producer never blocks on the semaphore); `acquire` admits the oldest
waiting task when fewer than `MAX_CONCURRENT_UPLOADS` permits are taken;
`finish` completes one admitted task, releasing its permit and buffer. -/
def driverStep (chunk : Nat) (s : DriverState) : DriverAction → Option DriverState
  | .produce =>
    if s.remaining = 0 ∨ chunk = 0 then none
    else
      let bytes := min chunk s.remaining
      some { s with remaining := s.remaining - bytes, waiting := s.waiting ++ [bytes] }
  | .acquire =>
    match s.waiting with
    | [] => none
    | b :: rest =>
      if s.inFlight.length < MAX_CONCURRENT_UPLOADS then
        some { s with waiting := rest, inFlight := s.inFlight ++ [b] }
      else none
  | .finish =>
    match s.inFlight with
    | [] => none
    | _ :: rest =>
      some { s with inFlight := rest, doneCount := s.doneCount + 1 }

def initDriver (total : Nat) : DriverState := ⟨total, [], [], 0⟩

def runDriver (chunk : Nat) : List DriverAction → DriverState → Option DriverState
  | [], s => some s
  | a :: rest, s =>
    match driverStep chunk s a with
    | none => none
    | some s2 => runDriver chunk rest s2

/-- Bytes of chunk buffers that have been read from disk but not yet handed
to a completed part-upload task. -/
def liveBytes (s : DriverState) : Nat := s.waiting.sum + s.inFlight.sum

/-! Backup codec of `src-tauri/src/migration/mod.rs`.  Bytes are `Nat`
(values < 256 in the program).  SHA-256 (the `sha2` crate) is modelled as an
abstract function `Hh : List Nat → List Nat`; AES-256-GCM (the `aes_gcm`
crate) as abstract `aeadEnc`/`aeadDec`; `serde_json` as abstract
`toJson`/`fromJson`.  Random salts and nonces are explicit inputs. -/

def NONCE_SIZE : Nat := 12

def SALT_SIZE : Nat := 16

/-- The 15 ASCII bytes of `b"TAURIDRIVE_BKP1"`. -/
def BACKUP_MAGIC : List Nat :=
  [84, 65, 85, 82, 73, 68, 82, 73, 86, 69, 95, 66, 75, 80, 49]

/-- The loop body of `derive_key_from_password`, iterated `n` times: each
round replaces `data` by `hash(data) ‖ salt`. -/
def kdfLoop (Hh : List Nat → List Nat) (salt : List Nat) :
    Nat → List Nat → List Nat
  | 0, data => data
  | n + 1, data => kdfLoop Hh salt n (Hh data ++ salt)

/-- `derive_key_from_password(password, salt)`: start from
`password_bytes ‖ salt`, run the 100000-round loop, then — as the source's
trailing `hasher.chain_update(&data).finalize()` does — hash the resulting
buffer once more to obtain the key. -/
def derive_key_from_password (Hh : List Nat → List Nat)
    (password salt : List Nat) : List Nat :=
  Hh (kdfLoop Hh salt 100000 (password ++ salt))

/-- Modelled from the spec: the key-derivation reference of §4.B, which says
to iterate SHA-256 for 100000 rounds, each round replacing the buffer with
`hash(buffer) ‖ salt`, and to output the final 32-byte digest as the key.
After the rounds the buffer is `digest ‖ salt`; the final 32-byte digest is
the hash computed in the 100000th round, i.e. `Hh` applied to the buffer
after 99999 rounds. -/
def derive_key_spec (Hh : List Nat → List Nat)
    (password salt : List Nat) : List Nat :=
  Hh ((fun d => Hh d ++ salt)^[99999] (password ++ salt))

structure CredentialsBackup where
  bucket_name : String
  account_id : String
  access_key_id : String
  secret_access_key : String
  endpoint : String
deriving DecidableEq, Repr

structure SyncFolderBackup where
  local_path : String
  remote_path : String
  sync_mode : String
  enabled : Bool
deriving DecidableEq, Repr

structure SettingBackup where
  key : String
  value : String
deriving DecidableEq, Repr

structure UploadHistoryBackup where
  file_path : String
  remote_path : String
  total_size : Int
  status : String
  completed_at : Option String
deriving DecidableEq, Repr

structure BackupData where
  version : Nat
  app_version : String
  created_at : String
  credentials : Option CredentialsBackup
  sync_folders : List SyncFolderBackup
  settings : List SettingBackup
  upload_history : List UploadHistoryBackup
deriving DecidableEq, Repr

/-- Error taxonomy of the backup codec, one constructor per distinct
`anyhow!` site of `decrypt_backup`/`encrypt_backup`'s read path:
`formatTooShort` is "Invalid backup file: too short", `formatWrongMagic` is
"Invalid backup file: wrong format or version" (both are the spec's
`BackupFormatInvalid` kind), `authFailed` is "Decryption failed: incorrect
password or corrupted file", `parseFailed` is the JSON-parse failure. -/
inductive BackupError where
  | formatTooShort
  | formatWrongMagic
  | authFailed
  | parseFailed
deriving DecidableEq, Repr

/-- `encrypt_backup(backup, password)`: JSON-serialise, derive the key from
the password and the fresh salt, AES-GCM-encrypt under the fresh nonce, and
emit `MAGIC ‖ salt ‖ nonce ‖ ciphertext`. -/
def encrypt_backup (Hh : List Nat → List Nat)
    (aeadEnc : List Nat → List Nat → List Nat → List Nat)
    (toJson : BackupData → List Nat)
    (backup : BackupData) (password salt nonce : List Nat) : List Nat :=
  BACKUP_MAGIC ++ (salt ++ (nonce ++
    aeadEnc (derive_key_from_password Hh password salt) nonce (toJson backup)))

/-- `decrypt_backup(encrypted, password)`: length check, magic check, slice
out salt/nonce/ciphertext at offsets 15, 15+16, 15+16+12, derive the key,
authenticated-decrypt, JSON-parse. -/
def decrypt_backup (Hh : List Nat → List Nat)
    (aeadDec : List Nat → List Nat → List Nat → Option (List Nat))
    (fromJson : List Nat → Option BackupData)
    (encrypted password : List Nat) : Except BackupError BackupData :=
  if encrypted.length < BACKUP_MAGIC.length + SALT_SIZE + NONCE_SIZE then
    Except.error BackupError.formatTooShort
  else if encrypted.take BACKUP_MAGIC.length ≠ BACKUP_MAGIC then
    Except.error BackupError.formatWrongMagic
  else
    match aeadDec
        (derive_key_from_password Hh password
          ((encrypted.drop BACKUP_MAGIC.length).take SALT_SIZE))
        ((encrypted.drop (BACKUP_MAGIC.length + SALT_SIZE)).take NONCE_SIZE)
        (encrypted.drop (BACKUP_MAGIC.length + SALT_SIZE + NONCE_SIZE)) with
    | none => Except.error BackupError.authFailed
    | some plaintext =>
      match fromJson plaintext with
      | none => Except.error BackupError.parseFailed
      | some backup => Except.ok backup

/-! Migration commands of `src-tauri/src/lib.rs`.  The database reads and
writes they orchestrate are abstracted as the `doExport`/`doImport`
callbacks; `preview_migration_backup` builds its summary purely. -/

/-- `export_migration_backup(file_path, password)`: rejects passwords whose
byte length is below 6 before any state is read or any file written; the
whole snapshot-building, encrypting and writing tail is `doExport`. -/
def export_migration_backup {α : Type} (password : List Nat)
    (doExport : Unit → Except String α) : Except String α :=
  if password.length < 6 then
    Except.error ("Password must be at least 6 characters")
  else doExport ()

/-- `import_migration_backup(file_path, password)`: reads the file (the
bytes are the `fileBytes` input), decrypts with the given password — with no
password-length check — and imports, the database writes being abstracted as
`doImport`. -/
def import_migration_backup {α : Type} (Hh : List Nat → List Nat)
    (aeadDec : List Nat → List Nat → List Nat → Option (List Nat))
    (fromJson : List Nat → Option BackupData)
    (doImport : BackupData → α)
    (fileBytes password : List Nat) : Except BackupError α :=
  (decrypt_backup Hh aeadDec fromJson fileBytes password).map doImport

structure MigrationPreview where
  version : Nat
  app_version : String
  created_at : String
  has_credentials : Bool
  bucket_name : Option String
  sync_folders_count : Nat
  settings_count : Nat
  upload_history_count : Nat
deriving DecidableEq, Repr

/-- The summary struct built by `preview_migration_backup` from a decrypted
backup. -/
def mkPreview (b : BackupData) : MigrationPreview :=
  ⟨b.version, b.app_version, b.created_at, b.credentials.isSome,
    b.credentials.map (fun c => c.bucket_name),
    b.sync_folders.length, b.settings.length, b.upload_history.length⟩

/-- `preview_migration_backup(file_path, password)`: decrypt — with no
password-length check — and summarise without importing. -/
def preview_migration_backup (Hh : List Nat → List Nat)
    (aeadDec : List Nat → List Nat → List Nat → Option (List Nat))
    (fromJson : List Nat → Option BackupData)
    (fileBytes password : List Nat) : Except BackupError MigrationPreview :=
  (decrypt_backup Hh aeadDec fromJson fileBytes password).map mkPreview

/-! Local keystore codec of `src-tauri/src/crypto/mod.rs` (§A).  The AES-GCM
cipher, the base64 engine and the UTF-8 codec are external crates, modelled
as abstract functions; the module's own logic is the nonce-prepend layout,
the base64 transport, the minimum-length check and the split at
`NONCE_SIZE`. -/

/-- `Crypto::encrypt(plaintext)`: draw a fresh 12-byte nonce (an input
here), AES-GCM-encrypt the UTF-8 bytes, and base64-encode
`nonce ‖ ciphertext`. -/
def Crypto_encrypt (aeadEnc : List Nat → List Nat → List Nat → List Nat)
    (b64enc : List Nat → String) (utf8enc : String → List Nat)
    (key nonce : List Nat) (plaintext : String) : String :=
  b64enc (nonce ++ aeadEnc key nonce (utf8enc plaintext))

/-- `Crypto::decrypt(encrypted)`: base64-decode, check the combined length
is at least `NONCE_SIZE`, split nonce from ciphertext at 12, decrypt and
authenticate, and re-validate UTF-8. -/
def Crypto_decrypt (aeadDec : List Nat → List Nat → List Nat → Option (List Nat))
    (b64dec : String → Option (List Nat)) (utf8dec : List Nat → Option String)
    (key : List Nat) (encrypted : String) : Except String String :=
  match b64dec encrypted with
  | none => Except.error ("Failed to decode encrypted data")
  | some combined =>
    if combined.length < NONCE_SIZE then
      Except.error ("Encrypted data too short")
    else
      match aeadDec key (combined.take NONCE_SIZE) (combined.drop NONCE_SIZE) with
      | none => Except.error ("Decryption failed")
      | some plaintext =>
        match utf8dec plaintext with
        | none => Except.error ("Decrypted data is not valid UTF-8")
        | some s => Except.ok s

/-! Upload state manager of `src-tauri/src/upload/manager.rs` (§D): the
fields of one `uploads` row that `update_upload_status` can touch. -/

structure UploadRow where
  status : String
  uploadedSize : Int
  errorMessage : Option String
  completedAt : Option String
deriving DecidableEq, Repr

/-- `UploadManager::update_upload_status(upload_id, status, uploaded_size,
error_message)`: set `status` unconditionally; update `uploaded_size` and
`error_message` only when supplied; set `completed_at = now` exactly when
the new status is `"completed"` or `"failed"`. -/
def update_upload_status (row : UploadRow) (status : String)
    (uploadedSize : Option Int) (errorMessage : Option String)
    (now : String) : UploadRow :=
  { status := status
    uploadedSize :=
      match uploadedSize with
      | some s => s
      | none => row.uploadedSize
    errorMessage :=
      match errorMessage with
      | some e => some e
      | none => row.errorMessage
    completedAt :=
      if status = "completed" ∨ status = "failed" then some now
      else row.completedAt }

/-! Concrete instances of the abstract collaborators, used to evaluate the
theorems on concrete inputs. -/

/-- A trivially invertible AEAD instance (encryption side). -/
def idAeadEnc : List Nat → List Nat → List Nat → List Nat := fun _ _ p => p

/-- A trivially invertible AEAD instance (decryption side). -/
def idAeadDec : List Nat → List Nat → List Nat → Option (List Nat) :=
  fun _ _ c => some c

/-- A constant 32-byte hash instance. -/
def constHash : List Nat → List Nat := fun _ => List.replicate 32 0

/-- A hash instance that increments the first byte; its KDF iterates are in
closed form, which lets the 100000-round derivation be evaluated
symbolically. -/
def succHash : List Nat → List Nat := fun d => [d.headI + 1]

def zeroSalt : List Nat := List.replicate SALT_SIZE 0

def zeroNonce : List Nat := List.replicate NONCE_SIZE 0

def sampleBackup : BackupData :=
  ⟨1, "0.1.0", "2024-01-01T00:00:00Z", none, [], [], []⟩

/-- A serialiser instance for the concrete evaluations. -/
def constToJson : BackupData → List Nat := fun _ => []

/-- A parser instance inverting `constToJson` at `sampleBackup`. -/
def sampleFromJson : List Nat → Option BackupData := fun _ => some sampleBackup

def sampleEtags : Nat → String :=
  fun p => if p = 1 then ("a") else if p = 2 then ("b") else ("c")

/-- An arrival order of completed parts for a 3-part upload. -/
def samplePermList : List (Nat × String) := [(2, "b"), (3, "c"), (1, "a")]

/-- Task outcomes where part 2 fails and all other parts succeed. -/
def sampleOutcomes : Nat → PartOutcome :=
  fun p => if p = 2 then PartOutcome.err ("x") else PartOutcome.ok ("e")

def noCancel : Nat → Bool := fun _ => false

def sampleScript : List DriverAction :=
  [DriverAction.produce, DriverAction.acquire, DriverAction.finish]

def sampleExport : Unit → Except String Unit := fun _ => Except.ok ()

def sampleExport2 : Unit → Except String Unit := fun _ => Except.ok ()

def w7_b64enc : List Nat → String := fun _ => ""

/-- A base64 decoder instance inverting `w7_b64enc` at the one transported
value of the concrete evaluation. -/
def w7_b64dec : String → Option (List Nat) := fun _ => some zeroNonce

def w7_utf8enc : String → List Nat := fun _ => []

def w7_utf8dec : List Nat → Option String := fun _ => some ("secret")

end TauriDrive

namespace TauriDrive

/-! Arithmetic of the part count. -/

theorem numParts_zero (chunk : Nat) : numParts 0 chunk = 0 := by
  unfold numParts
  cases chunk with
  | zero => rfl
  | succ c => exact Nat.div_eq_of_lt (by omega)

theorem numParts_of_le {r c : Nat} (hr : 1 ≤ r) (hrc : r ≤ c) : numParts r c = 1 := by
  unfold numParts
  exact Nat.div_eq_of_lt_le (by omega) (by omega)

theorem numParts_of_gt {r c : Nat} (hc : 1 ≤ c) (hcr : c < r) :
    numParts r c = numParts (r - c) c + 1 := by
  unfold numParts
  have he : r + c - 1 = r - c + c - 1 + c := by omega
  rw [he, Nat.add_div_right _ (by omega)]

theorem numParts_pos {r c : Nat} (hr : 1 ≤ r) (hc : 1 ≤ c) : 1 ≤ numParts r c := by
  have h := Nat.div_add_mod (r + c - 1) c
  have h2 := Nat.mod_lt (r + c - 1) (show 0 < c by omega)
  unfold numParts
  rcases Nat.eq_zero_or_pos ((r + c - 1) / c) with h0 | h1
  · rw [h0, Nat.mul_zero, Nat.zero_add] at h
    omega
  · exact h1

theorem numParts_remainder {r c : Nat} (hr : 1 ≤ r) (hc : 1 ≤ c) :
    1 ≤ r - (numParts r c - 1) * c ∧ r - (numParts r c - 1) * c ≤ c := by
  have hpos := numParts_pos hr hc
  have hn : numParts r c = (r + c - 1) / c := rfl
  have h := Nat.div_add_mod (r + c - 1) c
  have h2 := Nat.mod_lt (r + c - 1) (show 0 < c by omega)
  have hcm : c * ((r + c - 1) / c) = (r + c - 1) / c * c := Nat.mul_comm _ _
  rw [hcm] at h
  have hge : c ≤ (r + c - 1) / c * c :=
    Nat.le_mul_of_pos_left c (by omega)
  rw [Nat.sub_one_mul, hn]
  omega

/-! The chunk plan of the producer loop. -/

theorem planParts_of_zero (chunk partNo : Nat) : planParts chunk partNo 0 = [] := by
  rw [planParts]
  simp

theorem planParts_fst {c : Nat} (hc : 1 ≤ c) :
    ∀ r p, (planParts c p r).map Prod.fst = List.range' p (numParts r c) := by
  intro r
  induction r using Nat.strong_induction_on with
  | _ r ih =>
    intro p
    by_cases hr : r = 0
    · subst hr
      rw [planParts_of_zero, numParts_zero]
      rfl
    · rw [planParts, dif_neg hr, dif_neg (by omega : ¬c = 0)]
      by_cases hrc : r ≤ c
      · have hmin : min c r = r := by omega
        rw [hmin, Nat.sub_self, planParts_of_zero, numParts_of_le (by omega) hrc,
          List.range'_one]
        rfl
      · have hmin : min c r = c := by omega
        rw [hmin, numParts_of_gt hc (by omega), List.range'_succ, List.map_cons,
          ih (r - c) (by omega) (p + 1)]

theorem planParts_snd {c : Nat} (hc : 1 ≤ c) :
    ∀ r p, 1 ≤ r →
      (planParts c p r).map Prod.snd =
        List.replicate (numParts r c - 1) c ++ [r - (numParts r c - 1) * c] := by
  intro r
  induction r using Nat.strong_induction_on with
  | _ r ih =>
    intro p hr1
    rw [planParts, dif_neg (by omega : ¬r = 0), dif_neg (by omega : ¬c = 0)]
    by_cases hrc : r ≤ c
    · have hmin : min c r = r := by omega
      rw [hmin, Nat.sub_self, planParts_of_zero, numParts_of_le hr1 hrc]
      simp
    · have hmin : min c r = c := by omega
      have hn1 : 1 ≤ numParts (r - c) c := numParts_pos (by omega) hc
      obtain ⟨k, hk⟩ : ∃ k, numParts (r - c) c = k + 1 :=
        ⟨numParts (r - c) c - 1, by omega⟩
      rw [hmin, numParts_of_gt hc (by omega), List.map_cons,
        ih (r - c) (by omega) (p + 1) (by omega), hk]
      have hmul : (k + 1) * c = k * c + c := by ring
      simp only [Nat.add_sub_cancel, List.replicate_succ, List.cons_append,
        List.cons.injEq, true_and]
      have harg : r - c - k * c = r - (k + 1) * c := by
        rw [hmul]; omega
      rw [harg]

theorem planParts_length {c : Nat} (hc : 1 ≤ c) (r p : Nat) :
    (planParts c p r).length = numParts r c := by
  have h := congrArg List.length (planParts_fst hc r p)
  simpa using h

/-! Order of the sequence submitted by `complete`. -/

theorem completeSubmit_fst {n : Nat} (etags : Nat → String) (l : List (Nat × String))
    (hl : l.Perm ((List.range' 1 n).map fun p => (p, etags p))) :
    (completeSubmit l).map Prod.fst = List.range' 1 n := by
  have hperm : (completeSubmit l).Perm l := List.perm_insertionSort partLe l
  have hpermf : ((completeSubmit l).map Prod.fst).Perm (List.range' 1 n) := by
    have h1 := (hperm.trans hl).map Prod.fst
    simpa [List.map_map, Function.comp_def] using h1
  have hsorted : List.Sorted (· ≤ ·) ((completeSubmit l).map Prod.fst) := by
    have hs := List.sorted_insertionSort partLe l
    exact List.Pairwise.map Prod.fst (fun a b hab => hab) hs
  have hsorted2 : List.Sorted (· ≤ ·) (List.range' 1 n) :=
    (List.pairwise_lt_range' 1 n 1 (by omega)).imp fun h => Nat.le_of_lt h
  exact List.eq_of_perm_of_sorted hpermf hsorted hsorted2

/-- C1: for every file of at least one byte and effective chunk size
`chunk ≥ 1`, the producer plan has exactly `numParts = ⌈total/chunk⌉` parts
whose part numbers are `1 … numParts`, parts `1 … numParts−1` are exactly
`chunk` bytes, the final part carries the remainder (between 1 and `chunk`
bytes); and whatever order the concurrent tasks recorded the
`(part_number, etag)` pairs in, the sequence `complete` submits to
`CompleteMultipartUpload` has part numbers exactly `1 … numParts` in
strictly ascending order. -/
theorem multipart_chunk_plan_and_complete_order
    (total chunk : Nat) (etags : Nat → String) (l : List (Nat × String))
    (ht : 1 ≤ total) (hc : 1 ≤ chunk)
    (hl : l.Perm ((List.range' 1 (numParts total chunk)).map fun p => (p, etags p))) :
    (planParts chunk 1 total).map Prod.fst = List.range' 1 (numParts total chunk)
    ∧ (planParts chunk 1 total).map Prod.snd =
        List.replicate (numParts total chunk - 1) chunk ++
          [total - (numParts total chunk - 1) * chunk]
    ∧ 1 ≤ total - (numParts total chunk - 1) * chunk
    ∧ total - (numParts total chunk - 1) * chunk ≤ chunk
    ∧ (completeSubmit l).map Prod.fst = List.range' 1 (numParts total chunk)
    ∧ List.Pairwise (· < ·) ((completeSubmit l).map Prod.fst) := by
  refine ⟨planParts_fst hc total 1, planParts_snd hc total 1 ht,
    (numParts_remainder ht hc).1, (numParts_remainder ht hc).2,
    completeSubmit_fst etags l hl, ?_⟩
  rw [completeSubmit_fst etags l hl]
  exact List.pairwise_lt_range' 1 _ 1 (by omega)

theorem multipart_chunk_plan_and_complete_order_witness :
    (1 ≤ 5 ∧ 1 ≤ 2
      ∧ samplePermList.Perm
          ((List.range' 1 (numParts 5 2)).map fun p => (p, sampleEtags p)))
    ∧ ((planParts 2 1 5).map Prod.fst = List.range' 1 (numParts 5 2)
      ∧ (planParts 2 1 5).map Prod.snd =
          List.replicate (numParts 5 2 - 1) 2 ++ [5 - (numParts 5 2 - 1) * 2]
      ∧ 1 ≤ 5 - (numParts 5 2 - 1) * 2
      ∧ 5 - (numParts 5 2 - 1) * 2 ≤ 2
      ∧ (completeSubmit samplePermList).map Prod.fst = List.range' 1 (numParts 5 2)
      ∧ List.Pairwise (· < ·) ((completeSubmit samplePermList).map Prod.fst)) :=
  ⟨⟨by decide, by decide, by decide⟩,
    multipart_chunk_plan_and_complete_order 5 2 sampleEtags samplePermList
      (by decide) (by decide) (by decide)⟩

/-! Behaviour of the producer loop under cancellation. -/

theorem producerLoop_of_zero (c : Nat) (f : Nat → Bool) (p : Nat) :
    producerLoop c f p 0 = ([], false) := by
  rw [producerLoop]
  simp

theorem producerLoop_not_cancelled {c : Nat} (f : Nat → Bool) :
    ∀ r p, (producerLoop c f p r).2 = false →
      (producerLoop c f p r).1 = planParts c p r := by
  intro r
  induction r using Nat.strong_induction_on with
  | _ r ih =>
    intro p hfalse
    by_cases hr : r = 0
    · subst hr
      rw [producerLoop_of_zero, planParts_of_zero]
    · by_cases hc : c = 0
      · rw [producerLoop, dif_neg hr, dif_pos hc]
        rw [planParts, dif_neg hr, dif_pos hc]
      · rw [producerLoop, dif_neg hr, dif_neg hc] at hfalse ⊢
        by_cases hcan : f p = true
        · rw [if_pos hcan] at hfalse
          simp at hfalse
        · rw [if_neg hcan] at hfalse ⊢
          rw [planParts, dif_neg hr, dif_neg hc]
          simp only at hfalse ⊢
          have h1 : 0 < min c r := by
            exact lt_min (Nat.pos_of_ne_zero hc) (Nat.pos_of_ne_zero hr)
          rw [ih (r - min c r) (by omega) (p + 1) hfalse]

theorem producerLoop_cancelled {c : Nat} (hc : 1 ≤ c) (f : Nat → Bool) :
    ∀ r p, (producerLoop c f p r).2 = true →
      (producerLoop c f p r).1.length < numParts r c := by
  intro r
  induction r using Nat.strong_induction_on with
  | _ r ih =>
    intro p htrue
    by_cases hr : r = 0
    · rw [hr, producerLoop_of_zero] at htrue
      simp at htrue
    · rw [producerLoop, dif_neg hr, dif_neg (by omega : ¬c = 0)] at htrue ⊢
      by_cases hcan : f p = true
      · rw [if_pos hcan]
        simp only [List.length_nil]
        exact numParts_pos (by omega) hc
      · rw [if_neg hcan] at htrue ⊢
        simp only at htrue ⊢
        by_cases hrc : r ≤ c
        · have hmin : min c r = r := by omega
          rw [hmin, Nat.sub_self, producerLoop_of_zero] at htrue
          simp at htrue
        · have hmin : min c r = c := by omega
          rw [hmin] at htrue ⊢
          have h2 := ih (r - c) (by omega) (p + 1) htrue
          rw [numParts_of_gt hc (by omega)]
          simp only [List.length_cons]
          omega

/-! The completed-parts list versus the joined task results. -/

theorem completedOf_length_le (o : Nat → PartOutcome) (ts : List (Nat × Nat)) :
    (completedOf o ts).length ≤ ts.length :=
  List.length_filterMap_le _ _

theorem firstFailure_none_length (o : Nat → PartOutcome) :
    ∀ ts, firstFailure o ts = none → (completedOf o ts).length = ts.length := by
  intro ts
  induction ts with
  | nil => intro _; rfl
  | cons hd tl ih =>
    intro h
    obtain ⟨p, b⟩ := hd
    cases ho : o p with
    | ok e =>
      simp only [firstFailure, ho] at h
      have h2 := ih h
      simp only [completedOf] at h2 ⊢
      simp only [List.filterMap_cons, ho, List.length_cons]
      omega
    | err m =>
      simp [firstFailure, ho] at h
    | taskPanic m =>
      simp [firstFailure, ho] at h

theorem firstFailure_some_length (o : Nat → PartOutcome) :
    ∀ ts e, firstFailure o ts = some e → (completedOf o ts).length < ts.length := by
  intro ts
  induction ts with
  | nil => intro e h; simp [firstFailure] at h
  | cons hd tl ih =>
    intro e h
    obtain ⟨p, b⟩ := hd
    cases ho : o p with
    | ok et =>
      simp only [firstFailure, ho] at h
      have h2 := ih e h
      simp only [completedOf] at h2 ⊢
      simp only [List.filterMap_cons, ho, List.length_cons]
      omega
    | err m =>
      have h2 := completedOf_length_le o tl
      simp only [completedOf] at h2 ⊢
      simp only [List.filterMap_cons, ho, List.length_cons]
      omega
    | taskPanic m =>
      have h2 := completedOf_length_le o tl
      simp only [completedOf] at h2 ⊢
      simp only [List.filterMap_cons, ho, List.length_cons]
      omega

/-- C2: with chunk size at least 1, a run of the concurrent driver returns
successfully if and only if the completed-parts list has exactly
`⌈total/chunk⌉` entries; on every error return (a part error, a task panic,
a count mismatch, or cancellation) `AbortMultipartUpload` was invoked, and a
successful return never invoked it (the caller then invokes
`CompleteMultipartUpload`). -/
theorem multipart_complete_or_abort (total chunk : Nat) (cancelAt : Nat → Bool)
    (outcomes : Nat → PartOutcome) (hc : 1 ≤ chunk) :
    ((runConcurrent total chunk cancelAt outcomes).result.isOk = true ↔
      (runConcurrent total chunk cancelAt outcomes).completedParts.length =
        numParts total chunk)
    ∧ ((runConcurrent total chunk cancelAt outcomes).result.isOk = false →
      (runConcurrent total chunk cancelAt outcomes).aborted = true)
    ∧ ((runConcurrent total chunk cancelAt outcomes).result.isOk = true →
      (runConcurrent total chunk cancelAt outcomes).aborted = false) := by
  rcases hp : producerLoop chunk cancelAt 1 total with ⟨ts, cflag⟩
  cases cflag with
  | true =>
    have hlt : (completedOf outcomes ts).length < numParts total chunk := by
      have h1 := producerLoop_cancelled hc cancelAt total 1 (by rw [hp])
      rw [hp] at h1
      exact Nat.lt_of_le_of_lt (completedOf_length_le outcomes ts) h1
    have hres : (runConcurrent total chunk cancelAt outcomes).result =
        Except.error ("Upload cancelled") := by
      simp only [runConcurrent, hp, if_true]
    have hab : (runConcurrent total chunk cancelAt outcomes).aborted = true := by
      simp only [runConcurrent, hp, if_true]
    have hcp : (runConcurrent total chunk cancelAt outcomes).completedParts =
        completedOf outcomes ts := by
      simp only [runConcurrent, hp, if_true]
    rw [hres, hab, hcp]
    refine ⟨⟨fun h => ?_, fun h => ?_⟩, fun _ => rfl, fun h => ?_⟩
    · exact absurd h (by simp [Except.isOk, Except.toBool])
    · exact absurd h (by omega)
    · exact absurd h (by simp [Except.isOk, Except.toBool])
  | false =>
    have hts : ts = planParts chunk 1 total := by
      have h1 := producerLoop_not_cancelled cancelAt total 1 (c := chunk) (by rw [hp])
      rw [hp] at h1
      exact h1
    have htlen : ts.length = numParts total chunk := by
      rw [hts]
      exact planParts_length hc total 1
    cases hff : firstFailure outcomes ts with
    | some e =>
      have hlt : (completedOf outcomes ts).length < numParts total chunk := by
        rw [← htlen]
        exact firstFailure_some_length outcomes ts e hff
      have hres : (runConcurrent total chunk cancelAt outcomes).result =
          Except.error e := by
        simp only [runConcurrent, hp, hff, Bool.false_eq_true, if_false]
      have hab : (runConcurrent total chunk cancelAt outcomes).aborted = true := by
        simp only [runConcurrent, hp, hff, Bool.false_eq_true, if_false]
      have hcp : (runConcurrent total chunk cancelAt outcomes).completedParts =
          completedOf outcomes ts := by
        simp only [runConcurrent, hp, hff, Bool.false_eq_true, if_false]
      rw [hres, hab, hcp]
      refine ⟨⟨fun h => ?_, fun h => ?_⟩, fun _ => rfl, fun h => ?_⟩
      · exact absurd h (by simp [Except.isOk, Except.toBool])
      · exact absurd h (by omega)
      · exact absurd h (by simp [Except.isOk, Except.toBool])
    | none =>
      have heq : (completedOf outcomes ts).length = numParts total chunk := by
        rw [← htlen]
        exact firstFailure_none_length outcomes ts hff
      have hres : (runConcurrent total chunk cancelAt outcomes).result =
          Except.ok (completedOf outcomes ts) := by
        simp only [runConcurrent, hp, hff, Bool.false_eq_true, if_false, heq,
          ne_eq, not_true_eq_false, ite_false]
      have hab : (runConcurrent total chunk cancelAt outcomes).aborted = false := by
        simp only [runConcurrent, hp, hff, Bool.false_eq_true, if_false, heq,
          ne_eq, not_true_eq_false, ite_false]
      have hcp : (runConcurrent total chunk cancelAt outcomes).completedParts =
          completedOf outcomes ts := by
        simp only [runConcurrent, hp, hff, Bool.false_eq_true, if_false, heq,
          ne_eq, not_true_eq_false, ite_false]
      rw [hres, hab, hcp]
      exact ⟨⟨fun _ => heq, fun _ => rfl⟩, fun h => absurd h (by simp [Except.isOk, Except.toBool]),
        fun _ => rfl⟩

theorem multipart_complete_or_abort_witness :
    1 ≤ 1
    ∧ (((runConcurrent 3 1 noCancel sampleOutcomes).result.isOk = true ↔
        (runConcurrent 3 1 noCancel sampleOutcomes).completedParts.length =
          numParts 3 1)
      ∧ ((runConcurrent 3 1 noCancel sampleOutcomes).result.isOk = false →
        (runConcurrent 3 1 noCancel sampleOutcomes).aborted = true)
      ∧ ((runConcurrent 3 1 noCancel sampleOutcomes).result.isOk = true →
        (runConcurrent 3 1 noCancel sampleOutcomes).aborted = false)) :=
  ⟨by decide, multipart_complete_or_abort 3 1 noCancel sampleOutcomes (by decide)⟩

/-- C10: for a zero-byte source file the driver computes `num_parts = 0`,
dispatches no part-upload task, never aborts, and returns `Ok` with the
empty completed-parts list; `complete` applied to that list submits the
empty part sequence. -/
theorem multipart_zero_byte_file (chunk : Nat) (cancelAt : Nat → Bool)
    (outcomes : Nat → PartOutcome) :
    numParts 0 chunk = 0
    ∧ (runConcurrent 0 chunk cancelAt outcomes).dispatched = []
    ∧ (runConcurrent 0 chunk cancelAt outcomes).result = Except.ok []
    ∧ (runConcurrent 0 chunk cancelAt outcomes).aborted = false
    ∧ completeSubmit [] = [] := by
  have hp : producerLoop chunk cancelAt 1 0 = ([], false) :=
    producerLoop_of_zero chunk cancelAt 1
  refine ⟨numParts_zero chunk, ?_, ?_, ?_, rfl⟩
  · simp [runConcurrent, hp, completedOf, firstFailure, numParts_zero]
  · simp [runConcurrent, hp, completedOf, firstFailure, numParts_zero]
  · simp [runConcurrent, hp, completedOf, firstFailure, numParts_zero]

/-! The semaphore bounds concurrent uploads, not producer-side buffers. -/

theorem driverStep_inv {chunk : Nat} {s0 s1 : DriverState} {a : DriverAction}
    (h1 : ∀ b ∈ s0.waiting, b ≤ chunk) (h2 : ∀ b ∈ s0.inFlight, b ≤ chunk)
    (h3 : s0.inFlight.length ≤ MAX_CONCURRENT_UPLOADS)
    (ha : driverStep chunk s0 a = some s1) :
    (∀ b ∈ s1.waiting, b ≤ chunk) ∧ (∀ b ∈ s1.inFlight, b ≤ chunk) ∧
      s1.inFlight.length ≤ MAX_CONCURRENT_UPLOADS := by
  cases a with
  | produce =>
    simp only [driverStep] at ha
    split at ha
    · cases ha
    · cases ha
      refine ⟨?_, h2, h3⟩
      intro b hb
      rcases List.mem_append.mp hb with hbw | hbw
      · exact h1 b hbw
      · simp only [List.mem_singleton] at hbw
        subst hbw
        exact min_le_left _ _
  | acquire =>
    rcases hw : s0.waiting with _ | ⟨b, rest2⟩
    · simp only [driverStep, hw] at ha
      cases ha
    · simp only [driverStep, hw] at ha
      split at ha
      · cases ha
        refine ⟨?_, ?_, ?_⟩
        · intro x hx
          exact h1 x (by rw [hw]; exact List.mem_cons_of_mem b hx)
        · intro x hx
          rcases List.mem_append.mp hx with hbx | hbx
          · exact h2 x hbx
          · simp only [List.mem_singleton] at hbx
            rw [hbx]
            exact h1 b (by rw [hw]; exact List.mem_cons_self b rest2)
        · simp only [List.length_append, List.length_singleton]
          omega
      · cases ha
  | finish =>
    rcases hf : s0.inFlight with _ | ⟨b, rest2⟩
    · simp only [driverStep, hf] at ha
      cases ha
    · simp only [driverStep, hf] at ha
      cases ha
      refine ⟨h1, ?_, ?_⟩
      · intro x hx
        exact h2 x (by rw [hf]; exact List.mem_cons_of_mem b hx)
      · have h4 := h3
        rw [hf] at h4
        simp only [List.length_cons] at h4
        simp only []
        omega

theorem runDriver_inFlight_inv (chunk : Nat) :
    ∀ (script : List DriverAction) (s0 s : DriverState),
      (∀ b ∈ s0.waiting, b ≤ chunk) → (∀ b ∈ s0.inFlight, b ≤ chunk) →
      s0.inFlight.length ≤ MAX_CONCURRENT_UPLOADS →
      runDriver chunk script s0 = some s →
      (∀ b ∈ s.waiting, b ≤ chunk) ∧ (∀ b ∈ s.inFlight, b ≤ chunk) ∧
        s.inFlight.length ≤ MAX_CONCURRENT_UPLOADS := by
  intro script
  induction script with
  | nil =>
    intro s0 s h1 h2 h3 hrun
    rw [runDriver] at hrun
    cases hrun
    exact ⟨h1, h2, h3⟩
  | cons a rest ih =>
    intro s0 s h1 h2 h3 hrun
    rw [runDriver] at hrun
    cases ha : driverStep chunk s0 a with
    | none => rw [ha] at hrun; cases hrun
    | some s1 =>
      rw [ha] at hrun
      have hstep := driverStep_inv h1 h2 h3 ha
      exact ih s1 s hstep.1 hstep.2.1 hstep.2.2 hrun

/-- C3 counterexample: the claimed `chunk_size × 8` bound on read-but-not-yet
uploaded chunk buffers is false.  The producer loop reads chunks and spawns
their tasks without itself waiting on the semaphore (permits are only
acquired inside the spawned tasks), so with chunk size 1 and a 9-byte file
the producer can reach a state — before any task acquires a permit — in
which nine chunk buffers totalling 9 > 8 × 1 bytes are live. -/
theorem multipart_memory_unbounded_counterexample :
    runDriver 1 (List.replicate 9 DriverAction.produce) (initDriver 9) =
      some ⟨0, List.replicate 9 1, [], 0⟩
    ∧ 8 * 1 < liveBytes ⟨0, List.replicate 9 1, [], 0⟩ := by
  constructor
  · decide
  · decide

/-- C3 (amended): the semaphore bounds the number of part-upload tasks that
hold a permit — at every reachable point of a run at most 8 tasks are
actively uploading and their buffers total at most `8 × chunk` bytes;
buffers of dispatched tasks still waiting for a permit are not bounded by
the semaphore. -/
theorem multipart_in_flight_bound (chunk total : Nat)
    (script : List DriverAction) (s : DriverState)
    (h : runDriver chunk script (initDriver total) = some s) :
    s.inFlight.length ≤ MAX_CONCURRENT_UPLOADS
    ∧ s.inFlight.sum ≤ MAX_CONCURRENT_UPLOADS * chunk := by
  have hinv := runDriver_inFlight_inv chunk script (initDriver total) s
    (by intro b hb; cases hb) (by intro b hb; cases hb) (by simp [initDriver]) h
  refine ⟨hinv.2.2, ?_⟩
  have hsum : s.inFlight.sum ≤ s.inFlight.length • chunk :=
    List.sum_le_card_nsmul s.inFlight chunk hinv.2.1
  rw [smul_eq_mul] at hsum
  have hmul : s.inFlight.length * chunk ≤ MAX_CONCURRENT_UPLOADS * chunk :=
    Nat.mul_le_mul_right chunk hinv.2.2
  omega

theorem multipart_in_flight_bound_witness :
    runDriver 1 sampleScript (initDriver 2) = some ⟨1, [], [], 1⟩
    ∧ ((⟨1, [], [], 1⟩ : DriverState).inFlight.length ≤ MAX_CONCURRENT_UPLOADS
      ∧ (⟨1, [], [], 1⟩ : DriverState).inFlight.sum ≤ MAX_CONCURRENT_UPLOADS * 1) :=
  ⟨by decide, multipart_in_flight_bound 1 2 sampleScript ⟨1, [], [], 1⟩ (by decide)⟩

/-! Key derivation of the backup codec. -/

theorem kdfLoop_eq_iterate (Hh : List Nat → List Nat) (salt : List Nat) :
    ∀ (n : Nat) (data : List Nat),
      kdfLoop Hh salt n data = (fun d => Hh d ++ salt)^[n] data := by
  intro n
  induction n with
  | zero => intro data; rfl
  | succ k ih =>
    intro data
    rw [kdfLoop, Function.iterate_succ_apply]
    exact ih _

theorem succHash_iterate (salt : List Nat) :
    ∀ n : Nat, (fun d => succHash d ++ salt)^[n] ([0] ++ salt) = [n] ++ salt := by
  intro n
  induction n with
  | zero => rfl
  | succ k ih =>
    rw [Function.iterate_succ_apply', ih]
    rfl

/-- C5 counterexample: the code's key-derivation function is not the
reference procedure of the claim.  Instantiating the abstract hash with
`Hh(d) = [head(d) + 1]` (whose KDF iterates have the closed form
`[n] ‖ salt`), password `[0]` and the all-zero 16-byte salt, the code
derives `[100001]` while the reference — whose output is the digest computed
in the 100000th round — derives `[100000]`. -/
theorem kdf_spec_counterexample :
    derive_key_from_password succHash [0] zeroSalt ≠
      derive_key_spec succHash [0] zeroSalt := by
  unfold derive_key_from_password derive_key_spec
  rw [kdfLoop_eq_iterate, succHash_iterate, succHash_iterate]
  simp [succHash]

/-- C5 (amended): after the 100000 rounds the code applies one further hash
to the final buffer — for every hash function, password and salt the
produced AES-256 key equals `hash(referenceDigest ‖ salt)`, a 100001st hash
invocation, rather than the reference digest itself. -/
theorem kdf_extra_final_hash (Hh : List Nat → List Nat)
    (password salt : List Nat) :
    derive_key_from_password Hh password salt =
      Hh (derive_key_spec Hh password salt ++ salt) := by
  unfold derive_key_from_password derive_key_spec
  rw [kdfLoop_eq_iterate]
  have h100 : (100000 : Nat) = 99999 + 1 := rfl
  rw [h100, Function.iterate_succ_apply']

/-! Round trip of the backup envelope. -/

theorem decrypt_encrypt_backup (Hh : List Nat → List Nat)
    (aeadEnc : List Nat → List Nat → List Nat → List Nat)
    (aeadDec : List Nat → List Nat → List Nat → Option (List Nat))
    (toJson : BackupData → List Nat) (fromJson : List Nat → Option BackupData)
    (b : BackupData) (password salt nonce : List Nat)
    (hs : salt.length = SALT_SIZE) (hn : nonce.length = NONCE_SIZE)
    (ha : aeadDec (derive_key_from_password Hh password salt) nonce
        (aeadEnc (derive_key_from_password Hh password salt) nonce (toJson b)) =
      some (toJson b))
    (hj : fromJson (toJson b) = some b) :
    decrypt_backup Hh aeadDec fromJson
      (encrypt_backup Hh aeadEnc toJson b password salt nonce) password =
      Except.ok b := by
  unfold encrypt_backup decrypt_backup
  have hm : BACKUP_MAGIC.length = 15 := rfl
  have hlen : (BACKUP_MAGIC ++ (salt ++ (nonce ++
      aeadEnc (derive_key_from_password Hh password salt) nonce (toJson b)))).length =
      43 + (aeadEnc (derive_key_from_password Hh password salt) nonce (toJson b)).length := by
    simp only [List.length_append, hm, hs, hn, SALT_SIZE, NONCE_SIZE]
    omega
  rw [if_neg (by rw [hlen]; simp [SALT_SIZE, NONCE_SIZE, hm])]
  rw [if_neg (by rw [List.take_left]; simp)]
  have hd1 : (BACKUP_MAGIC ++ (salt ++ (nonce ++
      aeadEnc (derive_key_from_password Hh password salt) nonce (toJson b)))).drop
        BACKUP_MAGIC.length =
      salt ++ (nonce ++
        aeadEnc (derive_key_from_password Hh password salt) nonce (toJson b)) :=
    List.drop_left _ _
  have hd2 : (BACKUP_MAGIC ++ (salt ++ (nonce ++
      aeadEnc (derive_key_from_password Hh password salt) nonce (toJson b)))).drop
        (BACKUP_MAGIC.length + SALT_SIZE) =
      nonce ++ aeadEnc (derive_key_from_password Hh password salt) nonce (toJson b) := by
    rw [show BACKUP_MAGIC ++ (salt ++ (nonce ++
        aeadEnc (derive_key_from_password Hh password salt) nonce (toJson b))) =
      (BACKUP_MAGIC ++ salt) ++ (nonce ++
        aeadEnc (derive_key_from_password Hh password salt) nonce (toJson b)) by
        rw [List.append_assoc]]
    exact List.drop_left' (by rw [List.length_append, hm, hs])
  have hd3 : (BACKUP_MAGIC ++ (salt ++ (nonce ++
      aeadEnc (derive_key_from_password Hh password salt) nonce (toJson b)))).drop
        (BACKUP_MAGIC.length + SALT_SIZE + NONCE_SIZE) =
      aeadEnc (derive_key_from_password Hh password salt) nonce (toJson b) := by
    rw [show BACKUP_MAGIC ++ (salt ++ (nonce ++
        aeadEnc (derive_key_from_password Hh password salt) nonce (toJson b))) =
      ((BACKUP_MAGIC ++ salt) ++ nonce) ++
        aeadEnc (derive_key_from_password Hh password salt) nonce (toJson b) by
        rw [List.append_assoc, List.append_assoc]]
    exact List.drop_left' (by
      rw [List.length_append, List.length_append, hm, hs, hn])
  rw [hd1, hd2, hd3]
  rw [List.take_left' hs]
  rw [List.take_left' hn]
  simp only [ha, hj]

/-- C4: for every backup snapshot, every password (the empty password
included) and every fresh 16-byte salt and 12-byte nonce,
`decrypt_backup(encrypt_backup(b, p), p)` succeeds and returns a snapshot
equal to `b` in every field, for every AEAD and JSON collaborator that
round-trips on the encrypted payload. -/
theorem backup_roundtrip (Hh : List Nat → List Nat)
    (aeadEnc : List Nat → List Nat → List Nat → List Nat)
    (aeadDec : List Nat → List Nat → List Nat → Option (List Nat))
    (toJson : BackupData → List Nat) (fromJson : List Nat → Option BackupData)
    (b : BackupData) (password salt nonce : List Nat)
    (hs : salt.length = SALT_SIZE) (hn : nonce.length = NONCE_SIZE)
    (ha : aeadDec (derive_key_from_password Hh password salt) nonce
        (aeadEnc (derive_key_from_password Hh password salt) nonce (toJson b)) =
      some (toJson b))
    (hj : fromJson (toJson b) = some b) :
    decrypt_backup Hh aeadDec fromJson
      (encrypt_backup Hh aeadEnc toJson b password salt nonce) password =
      Except.ok b :=
  decrypt_encrypt_backup Hh aeadEnc aeadDec toJson fromJson b password salt nonce
    hs hn ha hj

theorem backup_roundtrip_witness :
    (zeroSalt.length = SALT_SIZE ∧ zeroNonce.length = NONCE_SIZE
      ∧ idAeadDec (derive_key_from_password constHash [] zeroSalt) zeroNonce
          (idAeadEnc (derive_key_from_password constHash [] zeroSalt) zeroNonce
            (constToJson sampleBackup)) = some (constToJson sampleBackup)
      ∧ sampleFromJson (constToJson sampleBackup) = some sampleBackup)
    ∧ decrypt_backup constHash idAeadDec sampleFromJson
        (encrypt_backup constHash idAeadEnc constToJson sampleBackup [] zeroSalt
          zeroNonce) [] = Except.ok sampleBackup :=
  ⟨⟨by decide, by decide, rfl, rfl⟩,
    backup_roundtrip constHash idAeadEnc idAeadDec constToJson sampleFromJson
      sampleBackup [] zeroSalt zeroNonce (by decide) (by decide) rfl rfl⟩

/-- C6: every byte sequence that does not start with the 15 magic bytes
`"TAURIDRIVE_BKP1"` — and every byte sequence shorter than
`|MAGIC| + 16 + 12` — makes `decrypt_backup` fail with a
`BackupFormatInvalid`-kind error (`formatTooShort` or `formatWrongMagic`),
for any password; inputs shorter than `|MAGIC| + 16 + 12` fail with
`formatTooShort`; and the result is the same for every hash, AEAD, parser
and password, i.e. the input is rejected before any key derivation or
decryption is attempted. -/
theorem decrypt_backup_rejects_bad_magic (Hh : List Nat → List Nat)
    (aeadDec : List Nat → List Nat → List Nat → Option (List Nat))
    (fromJson : List Nat → Option BackupData) (bytes password : List Nat)
    (h : bytes.take BACKUP_MAGIC.length ≠ BACKUP_MAGIC ∨
      bytes.length < BACKUP_MAGIC.length + SALT_SIZE + NONCE_SIZE) :
    (decrypt_backup Hh aeadDec fromJson bytes password =
        Except.error BackupError.formatTooShort
      ∨ decrypt_backup Hh aeadDec fromJson bytes password =
        Except.error BackupError.formatWrongMagic)
    ∧ (bytes.length < BACKUP_MAGIC.length + SALT_SIZE + NONCE_SIZE →
      decrypt_backup Hh aeadDec fromJson bytes password =
        Except.error BackupError.formatTooShort)
    ∧ (∀ (Hh2 : List Nat → List Nat)
        (aeadDec2 : List Nat → List Nat → List Nat → Option (List Nat))
        (fromJson2 : List Nat → Option BackupData) (password2 : List Nat),
        decrypt_backup Hh aeadDec fromJson bytes password =
          decrypt_backup Hh2 aeadDec2 fromJson2 bytes password2) := by
  by_cases hlen : bytes.length < BACKUP_MAGIC.length + SALT_SIZE + NONCE_SIZE
  · refine ⟨Or.inl ?_, fun _ => ?_, fun Hh2 a2 j2 p2 => ?_⟩
    · unfold decrypt_backup
      rw [if_pos hlen]
    · unfold decrypt_backup
      rw [if_pos hlen]
    · unfold decrypt_backup
      rw [if_pos hlen, if_pos hlen]
  · have hmag : bytes.take BACKUP_MAGIC.length ≠ BACKUP_MAGIC := h.resolve_right hlen
    refine ⟨Or.inr ?_, fun hcontra => absurd hcontra hlen, fun Hh2 a2 j2 p2 => ?_⟩
    · unfold decrypt_backup
      rw [if_neg hlen, if_pos hmag]
    · unfold decrypt_backup
      rw [if_neg hlen, if_pos hmag, if_neg hlen, if_pos hmag]

theorem decrypt_backup_rejects_bad_magic_witness :
    (List.take BACKUP_MAGIC.length ([] : List Nat) ≠ BACKUP_MAGIC ∨
      List.length ([] : List Nat) < BACKUP_MAGIC.length + SALT_SIZE + NONCE_SIZE)
    ∧ ((decrypt_backup constHash idAeadDec sampleFromJson [] [] =
          Except.error BackupError.formatTooShort
        ∨ decrypt_backup constHash idAeadDec sampleFromJson [] [] =
          Except.error BackupError.formatWrongMagic)
      ∧ (List.length ([] : List Nat) < BACKUP_MAGIC.length + SALT_SIZE + NONCE_SIZE →
        decrypt_backup constHash idAeadDec sampleFromJson [] [] =
          Except.error BackupError.formatTooShort)
      ∧ (∀ (Hh2 : List Nat → List Nat)
          (aeadDec2 : List Nat → List Nat → List Nat → Option (List Nat))
          (fromJson2 : List Nat → Option BackupData) (password2 : List Nat),
          decrypt_backup constHash idAeadDec sampleFromJson [] [] =
            decrypt_backup Hh2 aeadDec2 fromJson2 [] password2)) :=
  ⟨by decide,
    decrypt_backup_rejects_bad_magic constHash idAeadDec sampleFromJson [] []
      (by decide)⟩

/-- C7: for every string (empty, unicode, or arbitrarily long) and every
keystore codec instance, `decrypt(encrypt(s))` returns `s`: the 12-byte
nonce prepended by `encrypt` makes the decoded transport at least
`NONCE_SIZE` bytes long, the split at 12 recovers exactly the nonce and
ciphertext, and the collaborating base64, AEAD and UTF-8 codecs round-trip
on the transported value. -/
theorem crypto_roundtrip
    (aeadEnc : List Nat → List Nat → List Nat → List Nat)
    (aeadDec : List Nat → List Nat → List Nat → Option (List Nat))
    (b64enc : List Nat → String) (b64dec : String → Option (List Nat))
    (utf8enc : String → List Nat) (utf8dec : List Nat → Option String)
    (key nonce : List Nat) (s : String)
    (hnl : nonce.length = NONCE_SIZE)
    (hb : b64dec (b64enc (nonce ++ aeadEnc key nonce (utf8enc s))) =
      some (nonce ++ aeadEnc key nonce (utf8enc s)))
    (ha : aeadDec key nonce (aeadEnc key nonce (utf8enc s)) = some (utf8enc s))
    (hu : utf8dec (utf8enc s) = some s) :
    Crypto_decrypt aeadDec b64dec utf8dec key
      (Crypto_encrypt aeadEnc b64enc utf8enc key nonce s) = Except.ok s := by
  unfold Crypto_encrypt Crypto_decrypt
  simp only [hb]
  rw [if_neg (by simp [hnl, NONCE_SIZE])]
  rw [List.take_left' hnl, List.drop_left' hnl]
  simp only [ha, hu]

theorem crypto_roundtrip_witness :
    (zeroNonce.length = NONCE_SIZE
      ∧ w7_b64dec (w7_b64enc (zeroNonce ++
          idAeadEnc [] zeroNonce (w7_utf8enc "secret"))) =
        some (zeroNonce ++ idAeadEnc [] zeroNonce (w7_utf8enc "secret"))
      ∧ idAeadDec [] zeroNonce (idAeadEnc [] zeroNonce (w7_utf8enc "secret")) =
        some (w7_utf8enc "secret")
      ∧ w7_utf8dec (w7_utf8enc "secret") = some "secret")
    ∧ Crypto_decrypt idAeadDec w7_b64dec w7_utf8dec []
        (Crypto_encrypt idAeadEnc w7_b64enc w7_utf8enc [] zeroNonce "secret") =
      Except.ok "secret" :=
  ⟨⟨by decide, by decide, rfl, rfl⟩,
    crypto_roundtrip idAeadEnc idAeadDec w7_b64enc w7_b64dec w7_utf8enc
      w7_utf8dec [] zeroNonce "secret" (by decide) (by decide) rfl rfl⟩

/-- C8 counterexample: a record whose status is the terminal `"completed"`
is transitioned to `"uploading"` by a subsequent `update_upload_status`
call — the function has no terminal-state guard, refuting the claim. -/
theorem upload_status_terminal_counterexample :
    (update_upload_status ⟨"completed", 100, none, some ("t0")⟩ ("uploading")
        none none ("t1")).status = "uploading"
    ∧ ("uploading" : String) ≠ "completed" := by
  exact ⟨rfl, by decide⟩

/-- C8 (amended): `update_upload_status` applies the requested status
unconditionally — a record in a terminal status (`completed`, `failed` or
`cancelled`) is overwritten like any other; the update also sets
`uploaded_size`/`error_message` only when supplied and sets
`completed_at = now` exactly when the new status is `completed` or
`failed`. -/
theorem upload_status_unconditional (row : UploadRow) (st : String)
    (us : Option Int) (em : Option String) (now : String) :
    (update_upload_status row st us em now).status = st
    ∧ (update_upload_status row st us em now).uploadedSize = us.getD row.uploadedSize
    ∧ (update_upload_status row st us em now).errorMessage =
        (match em with
          | some e => some e
          | none => row.errorMessage)
    ∧ (update_upload_status row st us em now).completedAt =
        (if st = "completed" ∨ st = "failed" then some now else row.completedAt) := by
  refine ⟨rfl, ?_, rfl, rfl⟩
  cases us with
  | none => rfl
  | some v => rfl

/-- C9: `export_migration_backup` rejects every password of byte length
below 6 with an error, before the state-reading and file-writing
continuation runs (the result is the same for every continuation); with a
password of length at least 6 it runs the continuation.
`import_migration_backup` and `preview_migration_backup` perform no
password-length check: with the empty password they accept a well-formed
envelope encrypted under the empty password. -/
theorem migration_password_check_asymmetry {α β : Type}
    (pw : List Nat) (doExport doExport2 : Unit → Except String α)
    (Hh : List Nat → List Nat)
    (aeadEnc : List Nat → List Nat → List Nat → List Nat)
    (aeadDec : List Nat → List Nat → List Nat → Option (List Nat))
    (toJson : BackupData → List Nat) (fromJson : List Nat → Option BackupData)
    (doImport : BackupData → β) (b : BackupData) (salt nonce : List Nat)
    (hs : salt.length = SALT_SIZE) (hn : nonce.length = NONCE_SIZE)
    (ha : aeadDec (derive_key_from_password Hh [] salt) nonce
        (aeadEnc (derive_key_from_password Hh [] salt) nonce (toJson b)) =
      some (toJson b))
    (hj : fromJson (toJson b) = some b) :
    (pw.length < 6 →
      export_migration_backup pw doExport =
          Except.error ("Password must be at least 6 characters")
        ∧ export_migration_backup pw doExport = export_migration_backup pw doExport2)
    ∧ (6 ≤ pw.length → export_migration_backup pw doExport = doExport ())
    ∧ import_migration_backup Hh aeadDec fromJson doImport
        (encrypt_backup Hh aeadEnc toJson b [] salt nonce) [] =
      Except.ok (doImport b)
    ∧ preview_migration_backup Hh aeadDec fromJson
        (encrypt_backup Hh aeadEnc toJson b [] salt nonce) [] =
      Except.ok (mkPreview b) := by
  have hrt := decrypt_encrypt_backup Hh aeadEnc aeadDec toJson fromJson b []
    salt nonce hs hn ha hj
  refine ⟨fun hlt => ?_, fun hge => ?_, ?_, ?_⟩
  · constructor
    · unfold export_migration_backup
      rw [if_pos hlt]
    · unfold export_migration_backup
      rw [if_pos hlt, if_pos hlt]
  · unfold export_migration_backup
    rw [if_neg (by omega)]
  · unfold import_migration_backup
    rw [hrt]
    rfl
  · unfold preview_migration_backup
    rw [hrt]
    rfl

theorem migration_password_check_asymmetry_witness :
    (zeroSalt.length = SALT_SIZE ∧ zeroNonce.length = NONCE_SIZE
      ∧ idAeadDec (derive_key_from_password constHash [] zeroSalt) zeroNonce
          (idAeadEnc (derive_key_from_password constHash [] zeroSalt) zeroNonce
            (constToJson sampleBackup)) = some (constToJson sampleBackup)
      ∧ sampleFromJson (constToJson sampleBackup) = some sampleBackup)
    ∧ ((List.length ([] : List Nat) < 6 →
        export_migration_backup ([] : List Nat) sampleExport =
            Except.error ("Password must be at least 6 characters")
          ∧ export_migration_backup ([] : List Nat) sampleExport =
            export_migration_backup ([] : List Nat) sampleExport2)
      ∧ (6 ≤ List.length ([] : List Nat) →
        export_migration_backup ([] : List Nat) sampleExport = sampleExport ())
      ∧ import_migration_backup constHash idAeadDec sampleFromJson mkPreview
          (encrypt_backup constHash idAeadEnc constToJson sampleBackup []
            zeroSalt zeroNonce) [] = Except.ok (mkPreview sampleBackup)
      ∧ preview_migration_backup constHash idAeadDec sampleFromJson
          (encrypt_backup constHash idAeadEnc constToJson sampleBackup []
            zeroSalt zeroNonce) [] = Except.ok (mkPreview sampleBackup)) :=
  ⟨⟨by decide, by decide, rfl, rfl⟩,
    migration_password_check_asymmetry ([] : List Nat) sampleExport sampleExport2
      constHash idAeadEnc idAeadDec constToJson sampleFromJson mkPreview
      sampleBackup zeroSalt zeroNonce (by decide) (by decide) rfl rfl⟩

end TauriDrive
